import Mathlib

/-!
Verification of the column-declaration parser and AST of the DDL parser core
(src/dbms/src/Parsers/ParserCreateQuery.h and
src/dbms/src/Parsers/ASTColumnDeclaration.cpp).

The scan position is modelled as the remaining suffix of the input character
list, mirroring the char-pointer cursor of the original code.  Sub-parsers
whose bodies live outside the two source files (the identifier, whitespace,
keyword-string and expression parsers, and the IParserBase::parse / ignore /
check entry points) are modelled from the specification and carry a
`Modelled from the spec` note in their doc comment.
-/

namespace DB

/-- A scan position: the remaining suffix of the input character list. -/
abbrev Pos := List Char

/-- A source range: the pair of begin and end positions of a node. -/
abbrev SRange := Pos × Pos

/-- The AST node model.  Each node kind keeps the fields of its C++
counterpart; `columnDecl` mirrors ASTColumnDeclaration with its dual
bookkeeping of named child slots plus the generic `children` list. -/
inductive AST where
  | identifier (range : SRange) (name : String)
  | func (range : SRange) (name : String) (arguments : List AST)
  | literal (range : SRange) (value : Nat)
  | nameTypePair (range : SRange) (name : String) (type : AST) (children : List AST)
  | columnDecl (range : SRange) (name : String) (type : Option AST)
      (default_specifier : String) (default_expression : Option AST)
      (codec : Option AST) (comment : Option AST) (children : List AST)

/-- Result of one parse attempt: the success flag, the position the cursor
was left at, and the produced node (if any). -/
structure PRes where
  ok : Bool
  pos : Pos
  node : Option AST

/-- Word characters (letters, digits, underscore), as isWordCharASCII. -/
def isWordChar (c : Char) : Bool := c.isAlphanum || c == '_'

/-- Whitespace characters recognised by the lexical layer. -/
def isWS (c : Char) : Bool := c == ' ' || c == '\t' || c == '\n' || c == '\r'

/-- Case-insensitive match of the characters of a keyword against a prefix of
the input; on success returns the rest of the input. -/
def matchString : List Char → List Char → Option (List Char)
  | [], l => some l
  | _ :: _, [] => none
  | c :: cs, d :: ds => if c.toLower == d.toLower then matchString cs ds else none

/-- Modelled from the spec (§4.1, CommonParsers): the parse entry point
wrapping a parseImpl.  On failure the caller-visible position is unchanged
and no node is produced. -/
def parseWith (impl : Pos → PRes) (pos : Pos) : PRes :=
  let r := impl pos
  if r.ok then r else {ok := false, pos := pos, node := none}

/-- Modelled from the spec (§4.1): parse and discard the produced node. -/
def ignoreWith (impl : Pos → PRes) (pos : Pos) : Bool × Pos :=
  let r := parseWith impl pos
  (r.ok, r.pos)

/-- Modelled from the spec (§4.1): probe-only attempt; if it fails the
position is restored exactly as if nothing ran. -/
def checkWith (impl : Pos → PRes) (pos : Pos) : Bool × Pos :=
  let r := parseWith impl pos
  if r.ok then (r.ok, r.pos) else (false, pos)

/-- Modelled from the spec: ParserString with word_boundary and
case_insensitive set, as used for the keywords DEFAULT, MATERIALIZED and
ALIAS: the keyword must match case-insensitively and must not be followed by
a word character (every keyword here ends in a word character). -/
def parserStringImpl (s : String) (pos : Pos) : PRes :=
  match matchString s.data pos with
  | some rest =>
      match rest with
      | c :: _ =>
          if isWordChar c then {ok := false, pos := pos, node := none}
          else {ok := true, pos := rest, node := none}
      | [] => {ok := true, pos := rest, node := none}
  | none => {ok := false, pos := pos, node := none}

/-- Modelled from the spec (§4.2): ParserIdentifier for plain unquoted
identifiers: a leading letter or underscore followed by word characters. -/
def parserIdentifierImpl (pos : Pos) : PRes :=
  match pos with
  | c :: cs =>
      if c.isAlpha || c == '_' then
        let rest := cs.dropWhile isWordChar
        {ok := true, pos := rest,
         node := some (.identifier (pos, rest) (String.mk (c :: cs.takeWhile isWordChar)))}
      else {ok := false, pos := pos, node := none}
  | [] => {ok := false, pos := [], node := none}

/-- Modelled from the spec: ParserWhitespaceOrComments, restricted here to
whitespace; it succeeds iff at least one character is consumed. -/
def wsImpl (pos : Pos) : PRes :=
  match pos with
  | c :: _ =>
      if isWS c then {ok := true, pos := pos.dropWhile isWS, node := none}
      else {ok := false, pos := pos, node := none}
  | [] => {ok := false, pos := [], node := none}

/-- Decimal value of a digit run. -/
def digitsVal (l : List Char) : Nat := l.foldl (fun acc c => acc * 10 + (c.toNat - 48)) 0

/-- Modelled from the spec (§1, §6): ParserTernaryOperatorExpression is an
opaque external expression grammar; modelled as an unsigned decimal literal
or a plain identifier. -/
def exprImpl (pos : Pos) : PRes :=
  match pos with
  | c :: cs =>
      if c.isDigit then
        let rest := cs.dropWhile Char.isDigit
        {ok := true, pos := rest,
         node := some (.literal (pos, rest) (digitsVal (c :: cs.takeWhile Char.isDigit)))}
      else parseWith parserIdentifierImpl pos
  | [] => {ok := false, pos := [], node := none}

/-- The name extraction typeid_cast<ASTIdentifier &>(*node).name; the
parsers below only ever apply it to identifier nodes (spec §7, class 3). -/
def getIdentName : Option AST → String
  | some (.identifier _ n) => n
  | _ => ""

/-- Modelled from the spec (§4.2): the parenthesized comma-separated
argument list of ParserIdentifierWithParameters; the fuel argument bounds
the recursion by the input length. -/
def parseArgs : Nat → Pos → Option (List AST × Pos)
  | 0, _ => none
  | fuel + 1, pos =>
      let pos1 := pos.dropWhile isWS
      let r := parseWith exprImpl pos1
      if r.ok then
        match r.node with
        | some a =>
            let pos2 := r.pos.dropWhile isWS
            match pos2 with
            | ',' :: rest =>
                match parseArgs fuel rest with
                | some (as2, rest2) => some (a :: as2, rest2)
                | none => none
            | ')' :: rest => some ([a], rest)
            | _ => none
        | none => none
      else none

/-- Modelled from the spec (§4.2): ParserIdentifierWithParameters — an
identifier followed by a mandatory parenthesized argument list, producing a
function-like node. -/
def identWithParamsImpl (pos : Pos) : PRes :=
  let r := parseWith parserIdentifierImpl pos
  if r.ok then
    match r.pos with
    | '(' :: rest =>
        match parseArgs (rest.length + 1) rest with
        | some (args, rest2) =>
            {ok := true, pos := rest2, node := some (.func (pos, rest2) (getIdentName r.node) args)}
        | none => {ok := false, pos := r.pos, node := none}
    | _ => {ok := false, pos := r.pos, node := none}
  else {ok := false, pos := pos, node := none}

/-- Modelled from the spec (§4.2): ParserIdentifierWithOptionalParameters —
first the parametric form, else a bare identifier yielding a zero-argument
function-like node. -/
def identWithOptionalParamsImpl (pos : Pos) : PRes :=
  let rP := parseWith identWithParamsImpl pos
  if rP.ok then rP
  else
    let rI := parseWith parserIdentifierImpl pos
    if rI.ok then
      {ok := true, pos := rI.pos, node := some (.func (pos, rI.pos) (getIdentName rI.node) [])}
    else {ok := false, pos := pos, node := none}

/-- IParserNameTypePair::parseImpl (ParserCreateQuery.h, lines 72-95):
parse the name, require and skip whitespace, parse the type; on success
build an ASTNameTypePair spanning from the start of the name to the end of
the type, with the type attached as the single child. -/
def nameTypePairParseImpl (pos0 : Pos) : PRes :=
  let rN := parseWith parserIdentifierImpl pos0
  if rN.ok then
    let rW := ignoreWith wsImpl rN.pos
    if rW.1 then
      let rT := parseWith identWithOptionalParamsImpl rW.2
      if rT.ok then
        match rT.node with
        | some t =>
            {ok := true, pos := rT.pos,
             node := some (.nameTypePair (pos0, rT.pos) (getIdentName rN.node) t [t])}
        | none => {ok := false, pos := rT.pos, node := none}
      else {ok := false, pos := rT.pos, node := none}
    else {ok := false, pos := rW.2, node := none}
  else {ok := false, pos := rN.pos, node := none}

/-- The wrapped name-type-pair parser. -/
def nameTypePairParse (pos : Pos) : PRes := parseWith nameTypePairParseImpl pos

/-- IParserColumnDeclaration::parseImpl, lines 140-150: the type-or-specifier
disambiguation.  The current position is saved as fallback_pos; if none of
the keyword probes match, a type is attempted (skipping trailing whitespace
on success); otherwise the position is restored to fallback_pos and the type
slot is skipped. -/
def cdeclTypeStage (pos1 : Pos) : Option AST × Pos :=
  let fallback_pos := pos1
  if !(checkWith (parserStringImpl "DEFAULT") pos1).1
      && !(checkWith (parserStringImpl "MATERIALIZED") pos1).1
      && !(checkWith (parserStringImpl "ALIAS") pos1).1 then
    let rT := parseWith identWithOptionalParamsImpl pos1
    if rT.ok then (rT.node, (ignoreWith wsImpl rT.pos).2)
    else (none, rT.pos)
  else (none, fallback_pos)

/-- IParserColumnDeclaration::parseImpl, lines 156-158: consume DEFAULT,
else MATERIALIZED, else ALIAS (short-circuit, each via ignore). -/
def specTry (pos : Pos) : Bool × Pos :=
  let r1 := ignoreWith (parserStringImpl "DEFAULT") pos
  if r1.1 then r1
  else
    let r2 := ignoreWith (parserStringImpl "MATERIALIZED") r1.2
    if r2.1 then r2
    else ignoreWith (parserStringImpl "ALIAS") r2.2

/-- Poco::toUpper of std::string{pos_before_specifier, pos}: the characters
consumed between the two positions, upper-cased. -/
def upperSpan (b e : Pos) : String := String.mk ((b.take (b.length - e.length)).map Char.toUpper)

/-- IParserColumnDeclaration::parseImpl, lines 171-187: construct the
ASTColumnDeclaration node, attaching whichever of type and
default_expression are present as children, type first; the specifier
string is stored only together with a default expression. -/
def cdeclBuild (b : Pos) (colName : String) (type : Option AST)
    (default_specifier : String) (default_expression : Option AST) (pos : Pos) : PRes :=
  let children :=
    (match type with | some t => [t] | none => [])
      ++ (match default_expression with | some d => [d] | none => [])
  let ds := match default_expression with | some _ => default_specifier | none => ""
  {ok := true, pos := pos,
   node := some (.columnDecl (b, pos) colName type ds default_expression none none children)}

/-- IParserColumnDeclaration::parseImpl, lines 152-187: the specifier
clause.  If a specifier keyword is consumed, record its upper-cased text,
skip whitespace and require an expression — if the expression fails the
whole declaration fails.  Otherwise a missing type is rejected (a sole
column name is not a declaration). -/
def cdeclDefaultStage (b : Pos) (colName : String) (type : Option AST) (pos2 : Pos) : PRes :=
  let pos_before_specifier := pos2
  let sp := specTry pos2
  if sp.1 then
    let default_specifier := upperSpan pos_before_specifier sp.2
    let pos4 := (ignoreWith wsImpl sp.2).2
    let rE := parseWith exprImpl pos4
    if rE.ok then
      match rE.node with
      | some d => cdeclBuild b colName type default_specifier (some d) rE.pos
      | none => {ok := false, pos := rE.pos, node := none}
    else {ok := false, pos := rE.pos, node := none}
  else
    match type with
    | none => {ok := false, pos := sp.2, node := none}
    | some _ => cdeclBuild b colName type "" none sp.2

/-- IParserColumnDeclaration::parseImpl (ParserCreateQuery.h, lines
117-188): mandatory column name, optional whitespace, the type
disambiguation stage, then the specifier stage and node construction. -/
def columnDeclParseImpl (pos0 : Pos) : PRes :=
  let rName := parseWith parserIdentifierImpl pos0
  if rName.ok then
    let pos1 := (ignoreWith wsImpl rName.pos).2
    let ts := cdeclTypeStage pos1
    cdeclDefaultStage pos0 (getIdentName rName.node) ts.1 ts.2
  else {ok := false, pos := rName.pos, node := none}

/-- The wrapped column-declaration parser. -/
def columnDeclParse (pos : Pos) : PRes := parseWith columnDeclParseImpl pos

/-- Plain identifier shape: a leading letter or underscore followed by word
characters.  Used to state which inputs are valid names and type names. -/
def validIdent : List Char → Bool
  | [] => false
  | c :: cs => (c.isAlpha || c == '_') && cs.all isWordChar

/-- Modelled from the spec (§6): the format settings; nl_or_ws is a space in
single-line mode and a newline otherwise. -/
structure FormatSettings where
  hilite : Bool
  one_line : Bool

/-- The nl_or_ws separator of FormatSettings. -/
def FormatSettings.nl_or_ws (s : FormatSettings) : String := if s.one_line then " " else "\n"

/-- Modelled from the spec (§6): the highlighting marker opening a keyword. -/
def hilite_keyword : String := "\x1b[1m"

/-- Modelled from the spec (§6): the highlighting marker closing a keyword. -/
def hilite_none : String := "\x1b[0m"

/-- The by-value frame FormatStateStacked: indentation level and whether the
node must parenthesize itself. -/
structure FormatStateStacked where
  indent : Nat
  need_parens : Bool

/-- Modelled from the spec (§6): backQuoteIfNeed renders an identifier,
back-quoting it when it is not a plain identifier. -/
def backQuoteIfNeed (s : String) : String :=
  if validIdent s.data then s else "\x60" ++ s ++ "\x60"

mutual

/-- The node formatter.  The columnDecl branch is
ASTColumnDeclaration::formatImpl (ASTColumnDeclaration.cpp, lines 39-68):
it first forces need_parens to false on its by-value frame, then renders
name, type, specifier plus default expression, comment and codec in that
order.  The other branches are modelled from the spec (§4.2, §6): a
function-like node renders its name and optional argument list and
parenthesizes itself iff need_parens is set; identifiers and literals
render their text. -/
def formatImpl (s : FormatSettings) (frame : FormatStateStacked) : AST → String
  | .identifier _ n => backQuoteIfNeed n
  | .literal _ v => Nat.repr v
  | .func _ n arguments =>
      let core := n ++ (match arguments with
        | [] => ""
        | a :: rest =>
            "(" ++ formatImpl s {frame with need_parens := false} a
              ++ formatArgsRest s {frame with need_parens := false} rest ++ ")")
      if frame.need_parens then "(" ++ core ++ ")" else core
  | .nameTypePair _ n t _ =>
      backQuoteIfNeed n ++ " " ++ formatImpl s {frame with need_parens := false} t
  | .columnDecl _ n type default_specifier default_expression codec comment _ =>
      let frame2 := {frame with need_parens := false}
      let indent_str := if s.one_line then "" else String.mk (List.replicate (4 * frame2.indent) ' ')
      s.nl_or_ws ++ indent_str ++ backQuoteIfNeed n
        ++ (match type with
            | none => ""
            | some t => " " ++ formatImpl s frame2 t)
        ++ (match default_expression with
            | none => ""
            | some d =>
                " " ++ (if s.hilite then hilite_keyword else "") ++ default_specifier
                  ++ (if s.hilite then hilite_none else "") ++ " " ++ formatImpl s frame2 d)
        ++ (match comment with
            | none => ""
            | some c =>
                " " ++ (if s.hilite then hilite_keyword else "") ++ "COMMENT"
                  ++ (if s.hilite then hilite_none else "") ++ " " ++ formatImpl s frame2 c)
        ++ (match codec with
            | none => ""
            | some c => " " ++ formatImpl s frame2 c)

/-- Comma-separated tail of a rendered argument list. -/
def formatArgsRest (s : FormatSettings) (frame : FormatStateStacked) : List AST → String
  | [] => ""
  | a :: rest => ", " ++ formatImpl s frame a ++ formatArgsRest s frame rest

end

/-- Single-line, non-highlighted format settings. -/
def oneLineSettings : FormatSettings := {hilite := false, one_line := true}

/-- The initial formatting frame. -/
def initFrame : FormatStateStacked := {indent := 0, need_parens := false}

/-! ### Pointer-level model of ASTColumnDeclaration::clone

clone() is about object identity, so it is modelled over an explicit heap:
addresses are indices into a list of nodes, and allocating a node appends
it.  Child nodes (type, default expression, codec, comment) are modelled as
leaf nodes with a mutable payload; their virtual clone() is, per the spec
(§3), a deep copy, i.e. a fresh allocation of an equal node. -/

/-- A heap node: either an opaque child node with a mutable payload, or an
ASTColumnDeclaration whose child slots hold heap addresses. -/
inductive HNode where
  | leaf (payload : String)
  | decl (name : String) (default_specifier : String)
      (type : Option Nat) (default_expression : Option Nat)
      (codec : Option Nat) (comment : Option Nat) (children : List Nat)

/-- The heap: a list of nodes addressed by index. -/
abbrev Heap := List HNode

/-- Modelled from the spec (§3): clone() of an owned child node is a deep
copy — a fresh allocation holding an equal node. -/
def cloneChild (h : Heap) (a : Nat) : Heap × Nat :=
  match h[a]? with
  | some n => (h ++ [n], h.length)
  | none => (h, a)

/-- ASTColumnDeclaration::clone (ASTColumnDeclaration.cpp, lines 7-37): a
member-wise copy whose children list is cleared and rebuilt.  The type slot
is assigned the original address (res->type = type) and pushed; the
default_expression, codec and comment slots are assigned clones of the
originals and pushed, in that order. -/
def cloneColumnDecl (h : Heap) (a : Nat) : Option (Heap × Nat) :=
  match h[a]? with
  | some (.decl n ds ty de co cm _) =>
      let tyRes : Option Nat := ty
      let ch0 : List Nat := match ty with | some t => [t] | none => []
      let s1 : Heap × Option Nat × List Nat :=
        match de with
        | some d => let p := cloneChild h d; (p.1, some p.2, ch0 ++ [p.2])
        | none => (h, none, ch0)
      let s2 : Heap × Option Nat × List Nat :=
        match co with
        | some c => let p := cloneChild s1.1 c; (p.1, some p.2, s1.2.2 ++ [p.2])
        | none => (s1.1, none, s1.2.2)
      let s3 : Heap × Option Nat × List Nat :=
        match cm with
        | some c => let p := cloneChild s2.1 c; (p.1, some p.2, s2.2.2 ++ [p.2])
        | none => (s2.1, none, s2.2.2)
      some (s3.1 ++ [.decl n ds tyRes s1.2.1 s2.2.1 s3.2.1 s3.2.2], s3.1.length)
  | _ => none

/-- Mutate the child node at an address (the mutable-in-isolation use the
spec sanctions on a clone). -/
def setPayload (h : Heap) (a : Nat) (p : String) : Heap := h.set a (.leaf p)

/-- The address held in the type slot of the declaration at an address. -/
def typeChildAddr (h : Heap) (a : Nat) : Option Nat :=
  match h[a]? with
  | some (.decl _ _ ty _ _ _ _) => ty
  | _ => none

/-- Read the payload of the child node at an address. -/
def readLeaf (h : Heap) (a : Nat) : Option String :=
  match h[a]? with
  | some (.leaf p) => some p
  | _ => none

/-- A two-object heap: a type child node at address 0 and a column
declaration `x UInt8` at address 1 owning it. -/
def c1Heap : Heap := [.leaf "UInt8", .decl "x" "" (some 0) none none none [0]]

/-- The heap after cloning the declaration at address 1 of c1Heap: the clone
lives at address 2 and its type slot still holds address 0. -/
def c1CloneHeap : Heap :=
  [.leaf "UInt8", .decl "x" "" (some 0) none none none [0],
   .decl "x" "" (some 0) none none none [0]]

/-- The tree produced by parsing the column declaration `x UInt8`. -/
def c6Node : AST :=
  .columnDecl (("x UInt8").data, []) "x" (some (.func (("UInt8").data, []) "UInt8" [])) ""
    none none none [.func (("UInt8").data, []) "UInt8" []]

/-- A column declaration node whose default expression is an operator-like
function node, to exhibit the need_parens override. -/
def c10Node : AST :=
  .columnDecl ([], []) "x" (some (.func ([], []) "UInt8" [])) "DEFAULT"
    (some (.func ([], []) "plus" [.literal ([], []) 1, .literal ([], []) 2])) none none []

/-! ### Helper lemmas -/

theorem parseWith_fail {impl : Pos → PRes} {pos : Pos}
    (h : (parseWith impl pos).ok = false) :
    parseWith impl pos = {ok := false, pos := pos, node := none} := by
  simp only [parseWith] at h ⊢
  split at h
  · simp_all
  · simp_all

theorem parseWith_ok_eq {impl : Pos → PRes} {pos : Pos}
    (h : (parseWith impl pos).ok = true) :
    parseWith impl pos = impl pos := by
  simp only [parseWith] at h ⊢
  split at h
  · simp_all
  · simp_all

theorem parseWith_of_impl_ok {impl : Pos → PRes} {pos : Pos}
    (h : (impl pos).ok = true) :
    parseWith impl pos = impl pos := by
  simp only [parseWith, h, if_true]

theorem parseWith_of_impl_fail {impl : Pos → PRes} {pos : Pos}
    (h : (impl pos).ok = false) :
    parseWith impl pos = {ok := false, pos := pos, node := none} := by
  simp only [parseWith, h]
  simp

theorem ignoreWith_of_impl_ok {impl : Pos → PRes} {pos : Pos}
    (h : (impl pos).ok = true) :
    ignoreWith impl pos = (true, (impl pos).pos) := by
  simp only [ignoreWith, parseWith_of_impl_ok h, h]

theorem ignoreWith_of_impl_fail {impl : Pos → PRes} {pos : Pos}
    (h : (impl pos).ok = false) :
    ignoreWith impl pos = (false, pos) := by
  simp only [ignoreWith, parseWith_of_impl_fail h]

theorem checkWith_of_impl_fail {impl : Pos → PRes} {pos : Pos}
    (h : (impl pos).ok = false) :
    checkWith impl pos = (false, pos) := by
  simp only [checkWith, parseWith_of_impl_fail h]
  simp

theorem ignoreWith_ok_elim {impl : Pos → PRes} {pos p2 : Pos}
    (h : ignoreWith impl pos = (true, p2)) :
    (impl pos).ok = true ∧ (impl pos).pos = p2 := by
  cases hi : (impl pos).ok
  · rw [ignoreWith_of_impl_fail hi] at h
    simp at h
  · rw [ignoreWith_of_impl_ok hi] at h
    simp only [Prod.mk.injEq] at h
    exact ⟨rfl, h.2⟩

theorem word_of_alpha_or_underscore {c : Char} (h : (c.isAlpha || c == '_') = true) :
    isWordChar c = true := by
  simp only [Bool.or_eq_true] at h
  rcases h with h1 | h1
  · simp [isWordChar, Char.isAlphanum, h1]
  · simp [isWordChar, h1]

theorem not_ws_of_word {c : Char} (h : isWordChar c = true) : isWS c = false := by
  cases hb : isWS c
  · rfl
  · exfalso
    simp only [isWS, Bool.or_eq_true, beq_iff_eq] at hb
    rcases hb with ((rfl | rfl) | rfl) | rfl <;> exact absurd h (by decide)

theorem validIdent_all_word {l : List Char} (h : validIdent l = true) :
    ∀ c ∈ l, isWordChar c = true := by
  cases l with
  | nil => simp [validIdent] at h
  | cons a as =>
      simp only [validIdent, Bool.and_eq_true] at h
      intro c hc
      rcases List.mem_cons.mp hc with rfl | hc2
      · exact word_of_alpha_or_underscore h.1
      · exact List.all_eq_true.mp h.2 c hc2

theorem takeWhile_append_all {p : Char → Bool} (l r : List Char)
    (hl : ∀ c ∈ l, p c = true) (hr : ∀ c, r.head? = some c → p c = false) :
    (l ++ r).takeWhile p = l ∧ (l ++ r).dropWhile p = r := by
  induction l with
  | nil =>
      cases r with
      | nil => simp
      | cons c rs =>
          have hc := hr c rfl
          simp [List.takeWhile, List.dropWhile, hc]
  | cons a l2 ih =>
      have ha : p a = true := hl a (List.mem_cons_self a l2)
      have ih2 := ih (fun c hc => hl c (List.mem_cons_of_mem a hc))
      simp [List.takeWhile, List.dropWhile, ha, ih2.1, ih2.2]

theorem parserIdentifierImpl_valid {nm : List Char} (r : List Char)
    (h : validIdent nm = true)
    (hr : ∀ c, r.head? = some c → isWordChar c = false) :
    parserIdentifierImpl (nm ++ r) =
      {ok := true, pos := r, node := some (.identifier (nm ++ r, r) (String.mk nm))} := by
  cases nm with
  | nil => simp [validIdent] at h
  | cons c cs =>
      simp only [validIdent, Bool.and_eq_true] at h
      have hall : ∀ d ∈ cs, isWordChar d = true := fun d hd => List.all_eq_true.mp h.2 d hd
      have hsplit := takeWhile_append_all cs r hall hr
      simp only [List.cons_append, parserIdentifierImpl]
      rw [if_pos h.1, hsplit.1, hsplit.2]

theorem wsImpl_space {r : Pos} (hr : ∀ c, r.head? = some c → isWS c = false) :
    wsImpl (' ' :: r) = {ok := true, pos := r, node := none} := by
  have hdrop : (' ' :: r).dropWhile isWS = r := by
    rw [List.dropWhile_cons, if_pos (by decide : isWS ' ' = true)]
    cases r with
    | nil => rfl
    | cons c rs =>
        rw [List.dropWhile_cons, if_neg]
        simp [hr c rfl]
  simp [wsImpl, isWS, hdrop]

theorem matchString_some {s : List Char} :
    ∀ {l r : List Char}, matchString s l = some r →
      ∃ pre, l = pre ++ r ∧ pre.map Char.toLower = s.map Char.toLower := by
  induction s with
  | nil =>
      intro l r h
      simp only [matchString, Option.some_inj] at h
      exact ⟨[], by simp [h]⟩
  | cons c cs ih =>
      intro l r h
      cases l with
      | nil => simp [matchString] at h
      | cons d ds =>
          simp only [matchString] at h
          split at h
          · obtain ⟨pre, hp, hm⟩ := ih h
            refine ⟨d :: pre, by simp [hp], ?_⟩
            next heq =>
              simp only [List.map_cons, hm]
              rw [beq_iff_eq.mp heq]
          · exact absurd h (by simp)

theorem parserStringImpl_ok {kw : String} {pos : Pos}
    (h : (parserStringImpl kw pos).ok = true) :
    ∃ pre, pos = pre ++ (parserStringImpl kw pos).pos ∧
      pre.length = kw.data.length ∧
      pre.map Char.toLower = kw.data.map Char.toLower := by
  cases hm : matchString kw.data pos with
  | none => simp [parserStringImpl, hm] at h
  | some rest =>
      obtain ⟨pre, hp, hmap⟩ := matchString_some hm
      have hlen : pre.length = kw.data.length := by
        have := congrArg List.length hmap
        simpa using this
      cases rest with
      | nil =>
          refine ⟨pre, ?_, hlen, hmap⟩
          simp only [parserStringImpl, hm]
          simpa using hp
      | cons c cr =>
          by_cases hw : isWordChar c = true
          · simp [parserStringImpl, hm, hw] at h
          · refine ⟨pre, ?_, hlen, hmap⟩
            simp only [parserStringImpl, hm, hw, if_false]
            simpa [hw] using hp

theorem parserStringImpl_fails_on_ident {kw : String} {ty : Pos}
    (hval : validIdent ty = true)
    (hne : ty.map Char.toLower ≠ kw.data.map Char.toLower) :
    (parserStringImpl kw ty).ok = false := by
  cases hm : matchString kw.data ty with
  | none => simp [parserStringImpl, hm]
  | some rest =>
      obtain ⟨pre, hp, hmap⟩ := matchString_some hm
      cases rest with
      | nil =>
          exfalso
          apply hne
          rw [hp]
          simpa using hmap
      | cons c cr =>
          have hc : isWordChar c = true := by
            apply validIdent_all_word hval
            rw [hp]
            exact List.mem_append_right pre (List.mem_cons_self c cr)
          simp [parserStringImpl, hm, hc]

theorem upperSpan_ne_empty {pre p3 : Pos} (hne : pre ≠ []) :
    upperSpan (pre ++ p3) p3 ≠ "" := by
  unfold upperSpan
  have hlen : (pre ++ p3).length - p3.length = pre.length := by simp
  rw [hlen, List.take_left]
  intro hcontra
  have hdata : pre.map Char.toUpper = [] := congrArg String.data hcontra
  simp at hdata
  exact hne hdata

theorem specTry_ok_consumed {pos p3 : Pos} (h : specTry pos = (true, p3)) :
    ∃ pre, pos = pre ++ p3 ∧ pre ≠ [] := by
  have main : ∀ kw : String, kw.data ≠ [] →
      ignoreWith (parserStringImpl kw) pos = (true, p3) →
      ∃ pre, pos = pre ++ p3 ∧ pre ≠ [] := by
    intro kw hkw hig
    obtain ⟨hok, hpos⟩ := ignoreWith_ok_elim hig
    obtain ⟨pre, hp, hlen, _⟩ := parserStringImpl_ok hok
    rw [hpos] at hp
    refine ⟨pre, hp, ?_⟩
    intro hnil
    rw [hnil] at hlen
    exact hkw (List.length_eq_zero.mp hlen.symm)
  simp only [specTry] at h
  cases h1 : (parserStringImpl "DEFAULT" pos).ok
  · rw [ignoreWith_of_impl_fail h1] at h
    simp only [Bool.false_eq_true, if_false] at h
    cases h2 : (parserStringImpl "MATERIALIZED" pos).ok
    · rw [ignoreWith_of_impl_fail h2] at h
      simp only [Bool.false_eq_true, if_false] at h
      exact main "ALIAS" (by decide) h
    · rw [ignoreWith_of_impl_ok h2] at h
      simp only [if_true] at h
      exact main "MATERIALIZED" (by decide) (by rw [ignoreWith_of_impl_ok h2]; exact h)
  · rw [ignoreWith_of_impl_ok h1] at h
    simp only [if_true] at h
    exact main "DEFAULT" (by decide) (by rw [ignoreWith_of_impl_ok h1]; exact h)

theorem identWithOptionalParams_atEnd {ty : Pos} (h : validIdent ty = true) :
    identWithOptionalParamsImpl ty =
      {ok := true, pos := [], node := some (.func (ty, []) (String.mk ty) [])} := by
  have hid : parserIdentifierImpl ty =
      {ok := true, pos := [], node := some (.identifier (ty, []) (String.mk ty))} := by
    have hv := parserIdentifierImpl_valid [] h (by intro c hc; simp at hc)
    simpa using hv
  have hP : identWithParamsImpl ty = {ok := false, pos := [], node := none} := by
    simp only [identWithParamsImpl,
      parseWith_of_impl_ok (show (parserIdentifierImpl ty).ok = true by rw [hid]), hid]
    simp
  simp only [identWithOptionalParamsImpl,
    parseWith_of_impl_fail (show (identWithParamsImpl ty).ok = false by rw [hP])]
  simp only [Bool.false_eq_true, if_false]
  rw [parseWith_of_impl_ok (show (parserIdentifierImpl ty).ok = true by rw [hid]), hid]
  simp [getIdentName]

theorem cdeclTypeStage_ident {ty : Pos} (h2 : validIdent ty = true)
    (h3 : ty.map Char.toLower ≠ ("DEFAULT").data.map Char.toLower)
    (h4 : ty.map Char.toLower ≠ ("MATERIALIZED").data.map Char.toLower)
    (h5 : ty.map Char.toLower ≠ ("ALIAS").data.map Char.toLower) :
    cdeclTypeStage ty = (some (.func (ty, []) (String.mk ty) []), []) := by
  have c1 := checkWith_of_impl_fail (parserStringImpl_fails_on_ident h2 h3)
  have c2 := checkWith_of_impl_fail (parserStringImpl_fails_on_ident h2 h4)
  have c3 := checkWith_of_impl_fail (parserStringImpl_fails_on_ident h2 h5)
  have hty := identWithOptionalParams_atEnd h2
  simp only [cdeclTypeStage, c1, c2, c3]
  simp only [Bool.not_false, Bool.and_self, if_true]
  rw [parseWith_of_impl_ok (show (identWithOptionalParamsImpl ty).ok = true by rw [hty]), hty]
  simp
  rfl

theorem cdeclDefaultStage_typeOnly (b : Pos) (n : String) (t : AST) :
    cdeclDefaultStage b n (some t) [] =
      {ok := true, pos := [],
       node := some (.columnDecl (b, []) n (some t) "" none none none [t])} := by
  have hsp : specTry [] = (false, []) := rfl
  simp [cdeclDefaultStage, hsp, cdeclBuild]

theorem columnDeclParse_nameType {nm ty : List Char}
    (h1 : validIdent nm = true) (h2 : validIdent ty = true)
    (h3 : ty.map Char.toLower ≠ ("DEFAULT").data.map Char.toLower)
    (h4 : ty.map Char.toLower ≠ ("MATERIALIZED").data.map Char.toLower)
    (h5 : ty.map Char.toLower ≠ ("ALIAS").data.map Char.toLower) :
    columnDeclParse (nm ++ ' ' :: ty) =
      {ok := true, pos := [],
       node := some (.columnDecl (nm ++ ' ' :: ty, []) (String.mk nm)
         (some (.func (ty, []) (String.mk ty) [])) "" none none none
         [.func (ty, []) (String.mk ty) []])} := by
  have hid : parserIdentifierImpl (nm ++ ' ' :: ty) =
      {ok := true, pos := ' ' :: ty,
       node := some (.identifier (nm ++ ' ' :: ty, ' ' :: ty) (String.mk nm))} := by
    apply parserIdentifierImpl_valid (' ' :: ty) h1
    intro c hc
    simp at hc
    rw [← hc]
    decide
  have hty_head : ∀ c, ty.head? = some c → isWS c = false := by
    intro c hc
    cases ty with
    | nil => simp at hc
    | cons a as =>
        simp at hc
        rw [← hc]
        have ha : (a.isAlpha || a == '_') = true := by
          simp only [validIdent, Bool.and_eq_true] at h2
          exact h2.1
        exact not_ws_of_word (word_of_alpha_or_underscore ha)
  have hws : wsImpl (' ' :: ty) = {ok := true, pos := ty, node := none} := wsImpl_space hty_head
  have hstage := cdeclTypeStage_ident h2 h3 h4 h5
  have himpl : columnDeclParseImpl (nm ++ ' ' :: ty) =
      {ok := true, pos := [],
       node := some (.columnDecl (nm ++ ' ' :: ty, []) (String.mk nm)
         (some (.func (ty, []) (String.mk ty) [])) "" none none none
         [.func (ty, []) (String.mk ty) []])} := by
    simp only [columnDeclParseImpl,
      parseWith_of_impl_ok (show (parserIdentifierImpl (nm ++ ' ' :: ty)).ok = true by rw [hid]),
      hid]
    simp only [if_true]
    rw [ignoreWith_of_impl_ok (show (wsImpl (' ' :: ty)).ok = true by rw [hws])]
    rw [show (wsImpl (' ' :: ty)).pos = ty by rw [hws]]
    rw [hstage]
    simp only [getIdentName]
    exact cdeclDefaultStage_typeOnly (nm ++ ' ' :: ty) (String.mk nm) (.func (ty, []) (String.mk ty) [])
  unfold columnDeclParse
  rw [parseWith_of_impl_ok (show (columnDeclParseImpl (nm ++ ' ' :: ty)).ok = true by rw [himpl])]
  exact himpl

theorem cdeclDefaultStage_ok_shape {b : Pos} {n : String} {ty : Option AST} {pos2 : Pos}
    (h : (cdeclDefaultStage b n ty pos2).ok = true) :
    ∃ ds de ch pos9,
      cdeclDefaultStage b n ty pos2 =
        {ok := true, pos := pos9, node := some (.columnDecl (b, pos9) n ty ds de none none ch)}
      ∧ ch = ty.toList ++ de.toList
      ∧ (de.isSome = true ↔ ds ≠ "")
      ∧ (ty.isSome = true ∨ de.isSome = true) := by
  rcases Bool.eq_false_or_eq_true (specTry pos2).1 with hsp | hsp
  case inr =>
    simp only [cdeclDefaultStage, hsp, Bool.false_eq_true, if_false] at h ⊢
    cases ty with
    | none => simp at h
    | some t =>
        refine ⟨"", none, [t], (specTry pos2).2, ?_, ?_, ?_, ?_⟩
        · simp [cdeclBuild]
        · simp [Option.toList]
        · simp
        · left
          rfl
  case inl =>
    have hsp2 : specTry pos2 = (true, (specTry pos2).2) := by
      rw [← hsp]
    obtain ⟨pre, hpre, hprene⟩ := specTry_ok_consumed hsp2
    have hds : upperSpan pos2 (specTry pos2).2 ≠ "" := by
      have h9 := @upperSpan_ne_empty pre ((specTry pos2).2) hprene
      rw [← hpre] at h9
      exact h9
    simp only [cdeclDefaultStage, hsp, if_true] at h ⊢
    rcases Bool.eq_false_or_eq_true
        (parseWith exprImpl ((ignoreWith wsImpl (specTry pos2).2).2)).ok with hE | hE
    case inr =>
      rw [hE] at h
      simp at h
    case inl =>
      rw [hE] at h ⊢
      rcases Option.eq_none_or_eq_some
          ((parseWith exprImpl ((ignoreWith wsImpl (specTry pos2).2).2)).node) with hN | ⟨d, hN⟩
      · rw [hN] at h
        simp at h
      · rw [hN] at h ⊢
        refine ⟨upperSpan pos2 (specTry pos2).2, some d, ty.toList ++ [d],
          (parseWith exprImpl ((ignoreWith wsImpl (specTry pos2).2).2)).pos, ?_, ?_, ?_, ?_⟩
        · cases ty <;> simp [cdeclBuild, Option.toList]
        · rfl
        · exact ⟨fun _ => hds, fun _ => rfl⟩
        · right
          rfl

theorem columnDeclParse_ok_shape {pos : Pos} (h : (columnDeclParse pos).ok = true) :
    ∃ n ty ds de ch pos9,
      columnDeclParse pos =
        {ok := true, pos := pos9, node := some (.columnDecl (pos, pos9) n ty ds de none none ch)}
      ∧ ch = ty.toList ++ de.toList
      ∧ (de.isSome = true ↔ ds ≠ "")
      ∧ (ty.isSome = true ∨ de.isSome = true) := by
  unfold columnDeclParse at h ⊢
  have heq0 := parseWith_ok_eq h
  rw [heq0] at h ⊢
  simp only [columnDeclParseImpl] at h ⊢
  rcases Bool.eq_false_or_eq_true (parseWith parserIdentifierImpl pos).ok with hname | hname
  case inr =>
    rw [hname] at h
    simp at h
  case inl =>
    rw [hname] at h ⊢
    have h2 : (cdeclDefaultStage pos (getIdentName (parseWith parserIdentifierImpl pos).node)
        (cdeclTypeStage (ignoreWith wsImpl (parseWith parserIdentifierImpl pos).pos).2).1
        (cdeclTypeStage (ignoreWith wsImpl (parseWith parserIdentifierImpl pos).pos).2).2).ok = true := by
      simpa using h
    obtain ⟨ds, de, ch, pos9, heq, hch, hiff, hor⟩ := cdeclDefaultStage_ok_shape h2
    refine ⟨getIdentName (parseWith parserIdentifierImpl pos).node,
      (cdeclTypeStage (ignoreWith wsImpl (parseWith parserIdentifierImpl pos).pos).2).1,
      ds, de, ch, pos9, ?_, hch, hiff, hor⟩
    simpa using heq

/-! ### Claim theorems -/

/-- Claim C1 (code-bug evidence): ASTColumnDeclaration::clone does not
produce a fully independent tree — the type child is shared by address with
the original (res->type = type, line 14) rather than cloned, so mutating
the type child reachable from the clone is observable through the original:
cloning the declaration at address 1 of c1Heap yields a clone at address 2
whose type slot holds the same address 0 as the original, and after
mutating the node at that address the original reads the mutated payload
through its own type slot. -/
theorem clone_shares_type_child :
    cloneColumnDecl c1Heap 1 = some (c1CloneHeap, 2)
    ∧ typeChildAddr c1CloneHeap 2 = some 0
    ∧ typeChildAddr c1CloneHeap 1 = some 0
    ∧ readLeaf c1Heap 0 = some "UInt8"
    ∧ (typeChildAddr (setPayload c1CloneHeap 0 "mutated") 1).bind
        (readLeaf (setPayload c1CloneHeap 0 "mutated")) = some "mutated" :=
  ⟨rfl, rfl, rfl, rfl, rfl⟩

/-- Claim C2: whenever the non-consuming probe finds one of the keywords
DEFAULT, MATERIALIZED or ALIAS, the type slot is skipped entirely and the
position is restored to the saved fallback position; and the input
`x DEFAULT 1` parses into a ColumnDeclaration with type absent,
default_specifier DEFAULT and default_expression the literal 1. -/
theorem keyword_probe_skips_type :
    (∀ pos1, ((checkWith (parserStringImpl "DEFAULT") pos1).1
        || (checkWith (parserStringImpl "MATERIALIZED") pos1).1
        || (checkWith (parserStringImpl "ALIAS") pos1).1) = true →
        cdeclTypeStage pos1 = (none, pos1))
    ∧ columnDeclParse ("x DEFAULT 1").data =
        {ok := true, pos := [],
         node := some (.columnDecl (("x DEFAULT 1").data, []) "x" none "DEFAULT"
           (some (.literal (("1").data, []) 1)) none none
           [.literal (("1").data, []) 1])} := by
  constructor
  · intro pos1 hkw
    have hcond : (!(checkWith (parserStringImpl "DEFAULT") pos1).1
        && !(checkWith (parserStringImpl "MATERIALIZED") pos1).1
        && !(checkWith (parserStringImpl "ALIAS") pos1).1) = false := by
      simp only [Bool.or_eq_true] at hkw
      rcases hkw with (h | h) | h <;> simp [h]
    simp only [cdeclTypeStage, hcond, Bool.false_eq_true, if_false]
  · rfl

/-- Claim C2 witness: the probe position of `x DEFAULT 1` satisfies the
probe hypothesis and the type stage skips the type there. -/
theorem keyword_probe_skips_type_witness :
    cdeclTypeStage ("DEFAULT 1").data = (none, ("DEFAULT 1").data) :=
  keyword_probe_skips_type.1 (("DEFAULT 1").data) (by decide)

/-- Claim C3: once a specifier keyword has been consumed, a failing
expression parse fails the entire column declaration (no fallback); in
particular `x MATERIALIZED` fails to parse. -/
theorem specifier_commits_to_expression :
    (∀ b n ty pos2 p3, specTry pos2 = (true, p3) →
        (parseWith exprImpl ((ignoreWith wsImpl p3).2)).ok = false →
        cdeclDefaultStage b n ty pos2 =
          {ok := false, pos := (ignoreWith wsImpl p3).2, node := none})
    ∧ (columnDeclParse ("x MATERIALIZED").data).ok = false
    ∧ (columnDeclParse ("x MATERIALIZED").data).node = none := by
  refine ⟨?_, rfl, rfl⟩
  intro b n ty pos2 p3 hsp hE
  have hsp1 : (specTry pos2).1 = true := by rw [hsp]
  have hsp2 : (specTry pos2).2 = p3 := by rw [hsp]
  simp only [cdeclDefaultStage, hsp1, hsp2, if_true, parseWith_fail hE]
  simp

/-- Claim C3 witness: instantiated at the state reached by `x MATERIALIZED`
after the column name and whitespace. -/
theorem specifier_commits_to_expression_witness :
    cdeclDefaultStage [] "x" none ("MATERIALIZED").data =
      {ok := false, pos := [], node := none} :=
  specifier_commits_to_expression.1 [] "x" none ("MATERIALIZED").data []
    (by decide) (by decide)

/-- Claim C4: every successfully parsed ColumnDeclaration has
default_expression present iff default_specifier is non-empty, and at least
one of type and default_expression present; a bare column name `x` is
rejected with no node produced. -/
theorem columnDecl_invariants :
    (∀ pos rg n ty ds de co cm ch,
        (columnDeclParse pos).ok = true →
        (columnDeclParse pos).node = some (.columnDecl rg n ty ds de co cm ch) →
        ((de.isSome = true) ↔ ds ≠ "") ∧ (ty.isSome = true ∨ de.isSome = true))
    ∧ columnDeclParse ("x").data = {ok := false, pos := ("x").data, node := none} := by
  constructor
  · intro pos rg n ty ds de co cm ch hok hnode
    obtain ⟨n2, ty2, ds2, de2, ch2, pos9, heq, hch, hiff, hor⟩ := columnDeclParse_ok_shape hok
    rw [heq] at hnode
    simp only [Option.some.injEq, AST.columnDecl.injEq] at hnode
    obtain ⟨-, -, hty, hds, hde, -, -, -⟩ := hnode
    subst hty
    subst hds
    subst hde
    exact ⟨hiff, hor⟩
  · rfl

/-- Claim C4 witness: the invariants instantiated at the parse of
`x DEFAULT 1`. -/
theorem columnDecl_invariants_witness :
    ((some (AST.literal (("1").data, []) 1)).isSome = true ↔ "DEFAULT" ≠ "")
    ∧ ((none : Option AST).isSome = true
        ∨ (some (AST.literal (("1").data, []) 1)).isSome = true) :=
  columnDecl_invariants.1 (("x DEFAULT 1").data) (("x DEFAULT 1").data, []) "x" none
    "DEFAULT" (some (.literal (("1").data, []) 1)) none none
    [.literal (("1").data, []) 1] (by decide) rfl

/-- Claim C5: `x UInt8 DEFAULT 1` parses with both the type UInt8 and the
default clause present, and whenever both type and default expression are
present, the children list holds the type first and the default expression
second. -/
theorem parse_x_uint8_default_1 :
    columnDeclParse ("x UInt8 DEFAULT 1").data =
      {ok := true, pos := [],
       node := some (.columnDecl (("x UInt8 DEFAULT 1").data, []) "x"
         (some (.func (("UInt8 DEFAULT 1").data, (" DEFAULT 1").data) "UInt8" []))
         "DEFAULT" (some (.literal (("1").data, []) 1)) none none
         [.func (("UInt8 DEFAULT 1").data, (" DEFAULT 1").data) "UInt8" [],
          .literal (("1").data, []) 1])}
    ∧ ∀ b n t ds d p, cdeclBuild b n (some t) ds (some d) p =
        {ok := true, pos := p,
         node := some (.columnDecl (b, p) n (some t) ds (some d) none none [t, d])} := by
  constructor
  · rfl
  · intro b n t ds d p
    rfl

/-- Claim C6 counterexample: parsing `x UInt8` succeeds, but formatting the
resulting node produces text with a leading whitespace separator
(nl_or_ws), so re-parsing that exact text fails — the round trip as stated
does not hold. -/
theorem roundTrip_counterexample :
    columnDeclParse ("x UInt8").data = {ok := true, pos := [], node := some c6Node}
    ∧ formatImpl oneLineSettings initFrame c6Node = " x UInt8"
    ∧ columnDeclParse (" x UInt8").data =
        {ok := false, pos := (" x UInt8").data, node := none} := by
  refine ⟨rfl, ?_, rfl⟩
  simp only [c6Node, formatImpl, oneLineSettings, initFrame]
  rfl

/-- Claim C6 as amended: for every valid column declaration of the form
`name type`, parsing succeeds, formatting the node yields the original text
prefixed by the single-character whitespace separator, and re-parsing the
formatted text after that separator yields the identical (hence
structurally equal) tree. -/
theorem roundTrip_amended (nm ty : List Char)
    (h1 : validIdent nm = true) (h2 : validIdent ty = true)
    (h3 : ty.map Char.toLower ≠ ("DEFAULT").data.map Char.toLower)
    (h4 : ty.map Char.toLower ≠ ("MATERIALIZED").data.map Char.toLower)
    (h5 : ty.map Char.toLower ≠ ("ALIAS").data.map Char.toLower) :
    ∃ node,
      (columnDeclParse (nm ++ ' ' :: ty)).ok = true
      ∧ (columnDeclParse (nm ++ ' ' :: ty)).node = some node
      ∧ (formatImpl oneLineSettings initFrame node).data = ' ' :: (nm ++ ' ' :: ty)
      ∧ columnDeclParse ((formatImpl oneLineSettings initFrame node).data.drop 1)
          = columnDeclParse (nm ++ ' ' :: ty) := by
  have hp := columnDeclParse_nameType h1 h2 h3 h4 h5
  have hnm : backQuoteIfNeed (String.mk nm) = String.mk nm := by
    simp only [backQuoteIfNeed]
    rw [if_pos]
    exact h1
  have hfd : (formatImpl oneLineSettings initFrame
      (AST.columnDecl (nm ++ ' ' :: ty, []) (String.mk nm)
        (some (.func (ty, []) (String.mk ty) [])) "" none none none
        [.func (ty, []) (String.mk ty) []])).data = ' ' :: (nm ++ ' ' :: ty) := by
    simp only [formatImpl, oneLineSettings, initFrame, FormatSettings.nl_or_ws, hnm]
    simp [String.data_append]
  refine ⟨AST.columnDecl (nm ++ ' ' :: ty, []) (String.mk nm)
    (some (.func (ty, []) (String.mk ty) [])) "" none none none
    [.func (ty, []) (String.mk ty) []], by rw [hp], by rw [hp], hfd, ?_⟩
  rw [hfd]
  simp

/-- Claim C6 witness for the amended round trip, at `x UInt8`. -/
theorem roundTrip_amended_witness :
    ∃ node,
      (columnDeclParse (("x").data ++ ' ' :: ("UInt8").data)).ok = true
      ∧ (columnDeclParse (("x").data ++ ' ' :: ("UInt8").data)).node = some node
      ∧ (formatImpl oneLineSettings initFrame node).data
          = ' ' :: (("x").data ++ ' ' :: ("UInt8").data)
      ∧ columnDeclParse ((formatImpl oneLineSettings initFrame node).data.drop 1)
          = columnDeclParse (("x").data ++ ' ' :: ("UInt8").data) :=
  roundTrip_amended ("x").data ("UInt8").data (by decide) (by decide) (by decide)
    (by decide) (by decide)

/-- Claim C7: a failed column-declaration parse leaves the caller-visible
position (and node) exactly as they were; internally the failing attempt on
`x MATERIALIZED` does move the cursor (to the end of input), and that
mutation is discarded by the parse entry point. -/
theorem failure_restores_position :
    (∀ pos, (columnDeclParse pos).ok = false →
        columnDeclParse pos = {ok := false, pos := pos, node := none})
    ∧ (columnDeclParseImpl ("x MATERIALIZED").data).ok = false
    ∧ (columnDeclParseImpl ("x MATERIALIZED").data).pos = []
    ∧ (columnDeclParse ("x MATERIALIZED").data).pos = ("x MATERIALIZED").data := by
  refine ⟨?_, rfl, rfl, rfl⟩
  intro pos h
  exact parseWith_fail h

/-- Claim C7 witness: the failing input `x MATERIALIZED` leaves the
caller-visible position unchanged. -/
theorem failure_restores_position_witness :
    columnDeclParse ("x MATERIALIZED").data =
      {ok := false, pos := ("x MATERIALIZED").data, node := none} :=
  failure_restores_position.1 (("x MATERIALIZED").data) (by decide)

/-- Claim C8: the name-type-pair parser fails as a whole, with no node,
whenever the name parse, the mandatory whitespace, or the type parse fails;
and on success it builds a NameTypePair spanning from the start of the name
to the end of the type, with the name taken from the parsed identifier and
the type attached as the single child. -/
theorem nameTypePair_spec :
    (∀ pos, (parseWith parserIdentifierImpl pos).ok = false →
        nameTypePairParse pos = {ok := false, pos := pos, node := none})
    ∧ (∀ pos, (parseWith parserIdentifierImpl pos).ok = true →
        (ignoreWith wsImpl (parseWith parserIdentifierImpl pos).pos).1 = false →
        nameTypePairParse pos = {ok := false, pos := pos, node := none})
    ∧ (∀ pos, (parseWith parserIdentifierImpl pos).ok = true →
        (ignoreWith wsImpl (parseWith parserIdentifierImpl pos).pos).1 = true →
        (parseWith identWithOptionalParamsImpl
          (ignoreWith wsImpl (parseWith parserIdentifierImpl pos).pos).2).ok = false →
        nameTypePairParse pos = {ok := false, pos := pos, node := none})
    ∧ (∀ pos p1 p2 p3 rg nm t,
        parseWith parserIdentifierImpl pos =
          {ok := true, pos := p1, node := some (.identifier rg nm)} →
        ignoreWith wsImpl p1 = (true, p2) →
        parseWith identWithOptionalParamsImpl p2 = {ok := true, pos := p3, node := some t} →
        nameTypePairParse pos =
          {ok := true, pos := p3, node := some (.nameTypePair (pos, p3) nm t [t])}) := by
  refine ⟨?_, ?_, ?_, ?_⟩
  · intro pos hf
    have himpl : nameTypePairParseImpl pos = {ok := false, pos := pos, node := none} := by
      simp only [nameTypePairParseImpl, parseWith_fail hf]
      simp
    unfold nameTypePairParse
    rw [parseWith_of_impl_fail (show (nameTypePairParseImpl pos).ok = false by rw [himpl])]
  · intro pos hok hws
    have hwf : (wsImpl (parseWith parserIdentifierImpl pos).pos).ok = false := by
      rcases Bool.eq_false_or_eq_true
          (wsImpl (parseWith parserIdentifierImpl pos).pos).ok with hb | hb
      · rw [ignoreWith_of_impl_ok hb] at hws
        simp at hws
      · exact hb
    have himpl : (nameTypePairParseImpl pos).ok = false := by
      simp only [nameTypePairParseImpl, hok, ignoreWith_of_impl_fail hwf]
      simp
    unfold nameTypePairParse
    rw [parseWith_of_impl_fail himpl]
  · intro pos hok hws hty
    have himpl : (nameTypePairParseImpl pos).ok = false := by
      simp only [nameTypePairParseImpl, hok, parseWith_fail hty]
      rcases Bool.eq_false_or_eq_true
          (ignoreWith wsImpl (parseWith parserIdentifierImpl pos).pos).1 with hb | hb
      · simp [hb]
      · simp [hb] at hws
    unfold nameTypePairParse
    rw [parseWith_of_impl_fail himpl]
  · intro pos p1 p2 p3 rg nm t hname hws hty
    have himpl : nameTypePairParseImpl pos =
        {ok := true, pos := p3, node := some (.nameTypePair (pos, p3) nm t [t])} := by
      simp only [nameTypePairParseImpl, hname, hws, hty]
      simp [getIdentName]
    unfold nameTypePairParse
    rw [parseWith_of_impl_ok (show (nameTypePairParseImpl pos).ok = true by rw [himpl]), himpl]

/-- Claim C8 witness: the success case instantiated at `a UInt8`. -/
theorem nameTypePair_spec_witness :
    nameTypePairParse ("a UInt8").data =
      {ok := true, pos := [],
       node := some (.nameTypePair (("a UInt8").data, []) "a"
         (.func (("UInt8").data, []) "UInt8" [])
         [.func (("UInt8").data, []) "UInt8" []])} :=
  nameTypePair_spec.2.2.2 ("a UInt8").data (" UInt8").data ("UInt8").data []
    (("a UInt8").data, (" UInt8").data) "a" (.func (("UInt8").data, []) "UInt8" [])
    rfl rfl rfl

/-- Claim C9: every ColumnDeclaration the parser constructs has codec and
comment absent and its children list is exactly the present ones among
type and default_expression, in that order. -/
theorem columnDecl_children_exact :
    ∀ pos rg n ty ds de co cm ch,
      (columnDeclParse pos).ok = true →
      (columnDeclParse pos).node = some (.columnDecl rg n ty ds de co cm ch) →
      co = none ∧ cm = none ∧ ch = ty.toList ++ de.toList := by
  intro pos rg n ty ds de co cm ch hok hnode
  obtain ⟨n2, ty2, ds2, de2, ch2, pos9, heq, hch, hiff, hor⟩ := columnDeclParse_ok_shape hok
  rw [heq] at hnode
  simp only [Option.some.injEq, AST.columnDecl.injEq] at hnode
  obtain ⟨-, -, hty, -, hde, hco, hcm, hch2⟩ := hnode
  subst hty
  subst hde
  subst hco
  subst hcm
  subst hch2
  exact ⟨rfl, rfl, hch⟩

/-- Claim C9 witness: instantiated at the parse of `x UInt8`. -/
theorem columnDecl_children_exact_witness :
    (none : Option AST) = none ∧ (none : Option AST) = none ∧
      [AST.func (("UInt8").data, []) "UInt8" []] =
        (some (AST.func (("UInt8").data, []) "UInt8" [])).toList
          ++ (none : Option AST).toList :=
  columnDecl_children_exact ("x UInt8").data (("x UInt8").data, []) "x"
    (some (.func (("UInt8").data, []) "UInt8" [])) "" none none none
    [.func (("UInt8").data, []) "UInt8" []] (by decide) rfl

/-- Claim C10: ASTColumnDeclaration::formatImpl forces need_parens to false
on its by-value frame before rendering, so its output does not depend on
the need_parens flag passed in by the caller; the same flag does
parenthesize a bare function node, yet a declaration containing such a node
renders without the enclosing parentheses. -/
theorem formatImpl_need_parens_override :
    (∀ s f rg n ty ds de co cm ch,
        formatImpl s f (.columnDecl rg n ty ds de co cm ch)
          = formatImpl s {f with need_parens := false} (.columnDecl rg n ty ds de co cm ch))
    ∧ formatImpl oneLineSettings {indent := 0, need_parens := true}
        (.func ([], []) "plus" [.literal ([], []) 1, .literal ([], []) 2]) = "(plus(1, 2))"
    ∧ formatImpl oneLineSettings {indent := 0, need_parens := true} c10Node
        = " x UInt8 DEFAULT plus(1, 2)" := by
  refine ⟨?_, ?_, ?_⟩
  · intro s f rg n ty ds de co cm ch
    cases f
    cases ty <;> cases de <;> cases co <;> cases cm <;> simp only [formatImpl]
  · simp only [formatImpl, formatArgsRest]
    rfl
  · simp only [c10Node, formatImpl, formatArgsRest]
    rfl

end DB
